import Mathlib

/-!
Shallow embedding of the `rusted-newton` particle-dynamics engine
(`src/geometric_objects.rs`, `src/particles_system.rs`) over exact real
arithmetic.  Rust `f64` values are modelled as `ℝ`; `euclid::Vector3D`
(whose unit tag is phantom) is modelled as `ℝ × ℝ × ℝ`; `Vec` indexing
that can panic is modelled with `Option` (a `none` is a panic), and a
method on `&mut self` that can panic is modelled as a function returning
the memory state at the point the call returns or unwinds together with
a `Bool` that is `true` exactly when the call completed without panic.
-/

namespace RustedNewton

noncomputable section
open Classical

/-- `euclid::Vector3D<f64, U>` with the phantom unit tag erased
(`cast_unit` is the identity on the data). -/
abbrev Vec3 : Type := ℝ × ℝ × ℝ

/-- `Vector3D::dot`: componentwise product summed. -/
def dot (v w : Vec3) : ℝ := v.1 * w.1 + v.2.1 * w.2.1 + v.2.2 * w.2.2

/-- `Vector3D::square_length`. -/
def square_length (v : Vec3) : ℝ := dot v v

/-- `Vector3D::length`: square root of the squared length. -/
def length (v : Vec3) : ℝ := Real.sqrt (square_length v)

/-- Componentwise division of a vector by a scalar, as euclid's
`Div<T> for Vector3D` (`x / c` in each coordinate). -/
def vdiv (v : Vec3) (c : ℝ) : Vec3 := (v.1 / c, v.2.1 / c, v.2.2 / c)

/-- `Vector3D::normalize`: `self / self.length()`. -/
def normalize (v : Vec3) : Vec3 := vdiv v (length v)

/-- `Vector3D::project_onto_vector`:
`onto * (self.dot(onto) / onto.square_length())`. -/
def projectOntoVector (v onto : Vec3) : Vec3 :=
  (dot v onto / square_length onto) • onto

/-- `Particle` from `particles_system.rs`: position, velocity, mass. -/
@[ext]
structure Particle where
  position : Vec3
  velocity : Vec3
  mass : ℝ

instance : Inhabited Particle := ⟨⟨0, 0, 0⟩⟩

/-- The `Force` enum: `Elastic(k, d0)`, `Damping(c)`, `Gravitational`,
`Sticky(d_well, d_max, F_sticky, F_repuls)`. -/
inductive Force where
  | Elastic (k d0 : ℝ)
  | Damping (c : ℝ)
  | Gravitational
  | Sticky (d_well d_max F_sticky F_repuls : ℝ)

/-- `Force::acting_on_a`: the force acting on particle `a` due to the
interaction with particle `b`, with `r = b.position - a.position`. -/
def Force.acting_on_a (f : Force) (a b : Particle) : Vec3 :=
  let r : Vec3 := b.position - a.position
  match f with
  | Elastic k d0 => ((length r - d0) * k) • normalize r
  | Damping c => ((dot (b.velocity - a.velocity) r) * c) • normalize r
  | Gravitational => (a.mass * b.mass / square_length r) • normalize r
  | Sticky d_well d_max Fs Fr =>
      let d := length r
      if d > d_max then (0 : Vec3)
      else if d > d_well then Fs • normalize r
      else (-1 : ℝ) • (Fr • normalize r)

/-- `Force::acting_on_b`: `self.acting_on_a(a, b) * -1.`. -/
def Force.acting_on_b (f : Force) (a b : Particle) : Vec3 :=
  (-1 : ℝ) • f.acting_on_a a b

/-- The `ExternalForce` enum: `LinearDrag(b)` and
`Gravitational(g)` (a uniform gravitational acceleration). -/
inductive ExternalForce where
  | LinearDrag (b : ℝ)
  | Gravitational (g : Vec3)

/-- `ExternalForce::calculate_force`. -/
def ExternalForce.calculate_force (f : ExternalForce) (a : Particle) : Vec3 :=
  match f with
  | LinearDrag b => (-1 : ℝ) • (b • a.velocity)
  | Gravitational g => a.mass • g

/-- `geometric_objects::Plane`: a point on the plane and a normal. -/
structure Plane where
  position : Vec3
  normal : Vec3

/-- `geometric_objects::Sphere`. -/
structure Sphere where
  center : Vec3
  radius : ℝ

/-- `Sphere::is_inside`: `(self.center - *point).length() < self.radius`
(strict inequality: a point exactly on the boundary is NOT inside). -/
def Sphere.is_inside (s : Sphere) (point : Vec3) : Prop :=
  length (s.center - point) < s.radius

/-- The `ExternalConstraint` enum. -/
inductive ExternalConstraint where
  | infinite_wall (wall : Plane)
  | spherical_container (sphere : Sphere)

/-- `ExternalConstraint::compute_new_dynamical_variables`: the corrected
(position, velocity) pair for a particle against the boundary. -/
def ExternalConstraint.compute_new_dynamical_variables
    (c : ExternalConstraint) (particle : Particle) : Vec3 × Vec3 :=
  match c with
  | infinite_wall wall =>
      let d := dot (particle.position - wall.position) wall.normal
      if d < 0 then
        let new_vel := particle.velocity -
          (2 * dot particle.velocity (normalize wall.normal)) • normalize wall.normal
        (particle.position, new_vel)
      else
        (particle.position, particle.velocity)
  | spherical_container sphere =>
      if sphere.is_inside particle.position then
        (particle.position, particle.velocity)
      else
        let radial_direction := particle.position - sphere.center
        let new_vel := particle.velocity -
          (2 : ℝ) • projectOntoVector particle.velocity radial_direction
        (particle.position, new_vel)

/-- The `Interaction` enum: a pairwise force between two particle
indices, or an external force on one index. -/
inductive Interaction where
  | force_between_two_particles (idx_a idx_b : ℕ) (force : Force)
  | external_force (idx : ℕ) (force : ExternalForce)

/-- The `Constraint` enum. -/
inductive Constraint where
  | external_constraint (idx : ℕ) (c : ExternalConstraint)

/-- `ParticlesSystem`: the particle store, the interaction list, the
constraint list, the simulation clock and the snapshot counter. -/
structure ParticlesSystem where
  particles : List Particle
  interactions : List Interaction
  constraints : List Constraint
  time : ℝ
  n_time_saved_to_sql : ℕ

/-- `ParticlesSystem::new`: the empty system. -/
def ParticlesSystem.new : ParticlesSystem :=
  { particles := [], interactions := [], constraints := [], time := 0,
    n_time_saved_to_sql := 0 }

/-- `ParticlesSystem::add_particle`: pushes the particle and returns
`self.particles.len()` (the length AFTER the push). -/
def ParticlesSystem.add_particle (s : ParticlesSystem) (p : Particle) :
    ParticlesSystem × ℕ :=
  let particles := s.particles ++ [p]
  ({ s with particles := particles }, particles.length)

/-- `ParticlesSystem::add_interaction`: pushes the interaction,
performing no validation of the particle indices it references. -/
def ParticlesSystem.add_interaction (s : ParticlesSystem) (i : Interaction) :
    ParticlesSystem :=
  { s with interactions := s.interactions ++ [i] }

/-- `ParticlesSystem::add_constraint`: pushes the constraint,
performing no validation of the particle index it references. -/
def ParticlesSystem.add_constraint (s : ParticlesSystem) (c : Constraint) :
    ParticlesSystem :=
  { s with constraints := s.constraints ++ [c] }

/-- One iteration of the acceleration-accumulation loop of
`advance_time`: `none` models the panic of an out-of-range `Vec` index.
The acceleration added to a particle is the force divided by that
particle's mass. -/
def accumulateInteraction (particles : List Particle)
    (accs : List Vec3) (i : Interaction) : Option (List Vec3) :=
  match i with
  | .force_between_two_particles idx_a idx_b force =>
      match particles[idx_a]?, particles[idx_b]? with
      | some a, some b =>
          let accs1 := accs.set idx_a (accs.getD idx_a 0 + vdiv (force.acting_on_a a b) a.mass)
          some (accs1.set idx_b (accs1.getD idx_b 0 + vdiv (force.acting_on_b a b) b.mass))
      | _, _ => none
  | .external_force idx force =>
      match particles[idx]? with
      | some a => some (accs.set idx (accs.getD idx 0 + vdiv (force.calculate_force a) a.mass))
      | none => none

/-- The acceleration-accumulation phase of `advance_time`: starting from
one zero acceleration per particle, fold the interactions in
registration order; the first out-of-range index aborts (panic). -/
def computeAccelerations (s : ParticlesSystem) : Option (List Vec3) :=
  s.interactions.foldlM (accumulateInteraction s.particles)
    (List.replicate s.particles.length 0)

/-- The kinematic-update phase of `advance_time`: for particle `n` with
accumulated acceleration `a`, `dv = a * dt`,
`dr = v * dt + dv * dt / 2`, then position and velocity are advanced. -/
def kinematicUpdate (dt : ℝ) (accs : List Vec3)
    (particles : List Particle) : List Particle :=
  particles.mapIdx fun n p =>
    let a := accs.getD n 0
    let dv : Vec3 := dt • a
    let dr : Vec3 := dt • p.velocity + (dt / 2) • dv
    { p with position := p.position + dr, velocity := p.velocity + dv }

/-- One iteration of the constraint loop of `advance_time`: `none`
models the panic of an out-of-range particle index. -/
def applyConstraint (particles : List Particle) (c : Constraint) :
    Option (List Particle) :=
  match c with
  | .external_constraint idx ec =>
      match particles[idx]? with
      | some p =>
          let nv := ec.compute_new_dynamical_variables p
          some (particles.set idx { p with position := nv.1, velocity := nv.2 })
      | none => none

/-- The constraint phase of `advance_time`, keeping the memory state at
the point of a panic: the result is the particle list as left in memory
and a flag that is `true` when every constraint was applied. -/
def applyConstraintsMem :
    List Constraint → List Particle → List Particle × Bool
  | [], particles => (particles, true)
  | c :: cs, particles =>
      match applyConstraint particles c with
      | some particles1 => applyConstraintsMem cs particles1
      | none => (particles, false)

/-- `ParticlesSystem::advance_time`, as a memory-state transformer: the
first component is the state of `self` when the call returns (or when a
panic unwinds out of it), the second is `true` exactly when the call
completed.  The clock `time += time_step` runs only on completion. -/
def ParticlesSystem.advance_time (s : ParticlesSystem) (dt : ℝ) :
    ParticlesSystem × Bool :=
  match computeAccelerations s with
  | none => (s, false)
  | some accs =>
      let particles1 := kinematicUpdate dt accs s.particles
      let r := applyConstraintsMem s.constraints particles1
      if r.2 then
        ({ s with particles := r.1, time := s.time + dt }, true)
      else
        ({ s with particles := r.1 }, false)

/-- `n` repeated calls of `advance_time` with the same `dt` (the driver
loop), following the memory state. -/
def ParticlesSystem.advanceN (s : ParticlesSystem) (dt : ℝ) :
    ℕ → ParticlesSystem
  | 0 => s
  | n + 1 => ((s.advance_time dt).1).advanceN dt n

/-- The data one `dump_to_sqlite` call writes: the sequence number
(`n_time_saved_to_sql` at call time), the clock, and the particle rows
in store order. -/
structure Snapshot where
  sequenceIndex : ℕ
  time : ℝ
  particles : List Particle

/-- `ParticlesSystem::dump_to_sqlite`, with the SQLite connection
abstracted to the written snapshot: returns the exported snapshot and
the system state after the call (`n_time_saved_to_sql += 1`). -/
def ParticlesSystem.dump_to_sqlite (s : ParticlesSystem) :
    Snapshot × ParticlesSystem :=
  (⟨s.n_time_saved_to_sql, s.time, s.particles⟩,
   { s with n_time_saved_to_sql := s.n_time_saved_to_sql + 1 })

/-- Total momentum `Σ mass_i • velocity_i` of a particle list. -/
def momentum (particles : List Particle) : Vec3 :=
  (particles.map fun p => p.mass • p.velocity).sum

/-- Mass-weighted sum `Σ mass_i • accs_i` of an acceleration list. -/
def wsum (particles : List Particle) (accs : List Vec3) : Vec3 :=
  (List.zipWith (fun p a => p.mass • a) particles accs).sum

/-- An interaction references only indices below `n`. -/
def interactionInRange (n : ℕ) : Interaction → Prop
  | .force_between_two_particles idx_a idx_b _ => idx_a < n ∧ idx_b < n
  | .external_force idx _ => idx < n

/-- A concrete one-particle system with no interactions and no
constraints, used to exercise the kinematic update. -/
def kinSys : ParticlesSystem :=
  { particles := [⟨(1, 0, 0), (0, 1, 0), 2⟩], interactions := [], constraints := [],
    time := 0, n_time_saved_to_sql := 0 }

/-- A concrete two-particle system joined by one gravitational pairwise
interaction, used to exercise momentum conservation. -/
def gravSys : ParticlesSystem :=
  { particles := [⟨0, 0, 1⟩, ⟨(1, 0, 0), (0, 1, 0), 2⟩],
    interactions := [.force_between_two_particles 0 1 .Gravitational],
    constraints := [], time := 0, n_time_saved_to_sql := 0 }

/-- A constraint references only an index below `n`. -/
def constraintInRange (n : ℕ) : Constraint → Prop
  | .external_constraint idx _ => idx < n

/-- A concrete one-particle system holding an interaction that references
the out-of-range particle index 7. -/
def oobSys : ParticlesSystem :=
  { particles := [⟨0, 0, 1⟩],
    interactions := [.external_force 7 (.LinearDrag 1)],
    constraints := [], time := 0, n_time_saved_to_sql := 0 }

/-- A concrete one-particle system holding a constraint that references
the out-of-range particle index 4. -/
def oobConsSys : ParticlesSystem :=
  { particles := [⟨0, 0, 1⟩], interactions := [],
    constraints := [.external_constraint 4 (.infinite_wall ⟨0, (1, 0, 0)⟩)],
    time := 0, n_time_saved_to_sql := 0 }

/-! ### Vector and list helper lemmas -/

lemma vdiv_eq_smul (v : Vec3) (c : ℝ) : vdiv v c = c⁻¹ • v := by
  obtain ⟨x, y, z⟩ := v
  simp [vdiv, Prod.smul_mk, smul_eq_mul, div_eq_inv_mul]

lemma smul_vdiv_cancel {m : ℝ} (hm : m ≠ 0) (v : Vec3) : m • vdiv v m = v := by
  rw [vdiv_eq_smul, smul_smul, mul_inv_cancel₀ hm, one_smul]

lemma getD_mapIdx {α β : Type} (f : ℕ → α → β) :
    ∀ (l : List α) (i : ℕ), i < l.length → ∀ (d : β) (d' : α),
      (l.mapIdx f).getD i d = f i (l.getD i d')
  | [], i, hi => by simp at hi
  | a :: l, 0, hi => by simp [List.mapIdx_cons]
  | a :: l, i + 1, hi => by
      intro d d'
      simp only [List.mapIdx_cons, List.getD_cons_succ]
      exact getD_mapIdx (fun j => f (j + 1)) l i (by simpa using hi) d d'

lemma map_mapIdx_invariant {α γ : Type} (g : α → γ) :
    ∀ (f : ℕ → α → α), (∀ n x, g (f n x) = g x) → ∀ (l : List α),
      (l.mapIdx f).map g = l.map g := by
  intro f hf l
  induction l generalizing f with
  | nil => simp
  | cons a l ih =>
      simp only [List.mapIdx_cons, List.map_cons, hf]
      rw [ih (fun j x => f (j + 1) x) (fun n x => hf (n + 1) x)]

lemma set_getElem?_self {α : Type} (l : List α) (i : ℕ) (a : α) (h : l[i]? = some a) :
    l.set i a = l := by
  apply List.ext_getElem?
  intro n
  rcases eq_or_ne i n with rfl | hne
  · rw [List.getElem?_set_self (List.getElem?_eq_some.mp h).1]
    exact h.symm
  · exact List.getElem?_set_ne hne

lemma mem_of_getElem?_eq_some {α : Type} {l : List α} {i : ℕ} {a : α}
    (h : l[i]? = some a) : a ∈ l := by
  rcases List.getElem?_eq_some.mp h with ⟨hlt, rfl⟩
  exact List.mem_iff_getElem.mpr ⟨i, hlt, rfl⟩

lemma getD_tail {α : Type} (l : List α) (i : ℕ) (d : α) :
    l.getD (i + 1) d = l.tail.getD i d := by
  cases l <;> simp [List.getD]

/-! ### Frame lemmas for the phases of `advance_time` -/

lemma applyConstraint_frame {ps ps' : List Particle} {c : Constraint}
    (h : applyConstraint ps c = some ps') :
    ps'.map Particle.mass = ps.map Particle.mass ∧ ps'.length = ps.length := by
  obtain ⟨idx, ec⟩ := c
  cases hp : ps[idx]? with
  | none => simp [applyConstraint, hp] at h
  | some p =>
      simp only [applyConstraint, hp, Option.some.injEq] at h
      subst h
      refine ⟨?_, by simp [List.length_set]⟩
      rw [List.map_set]
      apply set_getElem?_self
      rw [List.getElem?_map, hp]
      rfl

lemma applyConstraintsMem_frame : ∀ (cs : List Constraint) (ps : List Particle),
    (applyConstraintsMem cs ps).1.map Particle.mass = ps.map Particle.mass ∧
    (applyConstraintsMem cs ps).1.length = ps.length
  | [], ps => ⟨rfl, rfl⟩
  | c :: cs, ps => by
      unfold applyConstraintsMem
      cases h : applyConstraint ps c with
      | none => exact ⟨rfl, rfl⟩
      | some ps1 =>
          obtain ⟨h1, h2⟩ := applyConstraint_frame h
          obtain ⟨h3, h4⟩ := applyConstraintsMem_frame cs ps1
          exact ⟨h3.trans h1, h4.trans h2⟩

lemma kinematicUpdate_map_mass (dt : ℝ) (accs : List Vec3) (ps : List Particle) :
    (kinematicUpdate dt accs ps).map Particle.mass = ps.map Particle.mass := by
  unfold kinematicUpdate
  apply map_mapIdx_invariant
  intro n x
  rfl

lemma kinematicUpdate_length (dt : ℝ) (accs : List Vec3) (ps : List Particle) :
    (kinematicUpdate dt accs ps).length = ps.length :=
  List.length_mapIdx

lemma advance_time_frame (s : ParticlesSystem) (dt : ℝ) :
    (s.advance_time dt).1.interactions = s.interactions ∧
    (s.advance_time dt).1.constraints = s.constraints ∧
    (s.advance_time dt).1.n_time_saved_to_sql = s.n_time_saved_to_sql ∧
    (s.advance_time dt).1.particles.map Particle.mass = s.particles.map Particle.mass ∧
    (s.advance_time dt).1.particles.length = s.particles.length := by
  cases h : computeAccelerations s with
  | none => simp [ParticlesSystem.advance_time, h]
  | some accs =>
      obtain ⟨h1, h2⟩ :=
        applyConstraintsMem_frame s.constraints (kinematicUpdate dt accs s.particles)
      have h3 := kinematicUpdate_map_mass dt accs s.particles
      have h4 := kinematicUpdate_length dt accs s.particles
      simp only [ParticlesSystem.advance_time, h]
      split <;>
        exact ⟨rfl, rfl, rfl, h1.trans h3, h2.trans h4⟩

lemma advance_time_clock (s : ParticlesSystem) (dt : ℝ) :
    ((s.advance_time dt).2 = true → (s.advance_time dt).1.time = s.time + dt) ∧
    ((s.advance_time dt).2 = false → (s.advance_time dt).1.time = s.time) := by
  cases h : computeAccelerations s with
  | none => simp [ParticlesSystem.advance_time, h]
  | some accs =>
      simp only [ParticlesSystem.advance_time, h]
      split <;> simp

/-! ### Momentum conservation machinery -/

/-- An interaction of the `force_between_two_particles` variant. -/
def isPairwise : Interaction → Prop
  | .force_between_two_particles _ _ _ => True
  | .external_force _ _ => False

lemma wsum_replicate_zero : ∀ (ps : List Particle) (n : ℕ),
    wsum ps (List.replicate n 0) = 0
  | [], _ => by simp [wsum]
  | _ :: _, 0 => by simp [wsum]
  | p :: ps, n + 1 => by
      simp only [List.replicate_succ, wsum, List.zipWith_cons_cons, List.sum_cons,
        smul_zero, zero_add]
      exact wsum_replicate_zero ps n

lemma wsum_set : ∀ (ps : List Particle) (as : List Vec3) (i : ℕ) (x : Vec3) (p : Particle),
    ps[i]? = some p → as.length = ps.length →
    wsum ps (as.set i (as.getD i 0 + x)) = wsum ps as + p.mass • x
  | [], _, i, _, _, hp, _ => by simp at hp
  | _ :: _, [], _, _, _, _, hlen => by simp at hlen
  | q :: ps, a :: as, 0, x, p, hp, _ => by
      simp only [List.getElem?_cons_zero, Option.some.injEq] at hp
      subst hp
      simp only [List.getD_cons_zero, List.set_cons_zero, wsum, List.zipWith_cons_cons,
        List.sum_cons, smul_add]
      abel
  | q :: ps, a :: as, i + 1, x, p, hp, hlen => by
      simp only [List.getElem?_cons_succ] at hp
      simp only [List.getD_cons_succ, List.set_cons_succ, wsum, List.zipWith_cons_cons,
        List.sum_cons]
      have ih := wsum_set ps as i x p hp (by simpa using hlen)
      simp only [wsum] at ih
      rw [ih]
      abel

lemma accumulateInteraction_length {ps : List Particle} {accs accs' : List Vec3}
    {j : Interaction} (h : accumulateInteraction ps accs j = some accs') :
    accs'.length = accs.length := by
  cases j with
  | force_between_two_particles ia ib f =>
      cases ha : ps[ia]? with
      | none => simp [accumulateInteraction, ha] at h
      | some a =>
          cases hb : ps[ib]? with
          | none => simp [accumulateInteraction, ha, hb] at h
          | some b =>
              simp only [accumulateInteraction, ha, hb, Option.some.injEq] at h
              subst h
              simp [List.length_set]
  | external_force idx f =>
      cases ha : ps[idx]? with
      | none => simp [accumulateInteraction, ha] at h
      | some a =>
          simp only [accumulateInteraction, ha, Option.some.injEq] at h
          subst h
          simp [List.length_set]

lemma wsum_accumulate {ps : List Particle} (hmass : ∀ p ∈ ps, p.mass ≠ 0)
    {j : Interaction} (hj : isPairwise j) {accs accs' : List Vec3}
    (hlen : accs.length = ps.length)
    (h : accumulateInteraction ps accs j = some accs') :
    wsum ps accs' = wsum ps accs := by
  cases j with
  | external_force idx f => exact absurd hj (by simp [isPairwise])
  | force_between_two_particles ia ib f =>
      cases ha : ps[ia]? with
      | none => simp [accumulateInteraction, ha] at h
      | some a =>
          cases hb : ps[ib]? with
          | none => simp [accumulateInteraction, ha, hb] at h
          | some b =>
              simp only [accumulateInteraction, ha, hb, Option.some.injEq] at h
              subst h
              have hma : a.mass ≠ 0 := hmass a (mem_of_getElem?_eq_some ha)
              have hmb : b.mass ≠ 0 := hmass b (mem_of_getElem?_eq_some hb)
              rw [wsum_set ps _ ib _ b hb (by rw [List.length_set]; exact hlen)]
              rw [wsum_set ps accs ia _ a ha hlen]
              rw [smul_vdiv_cancel hma, smul_vdiv_cancel hmb]
              simp only [Force.acting_on_b, neg_one_smul]
              abel

lemma foldlM_accumulate_length :
    ∀ (l : List Interaction) (ps : List Particle) (accs accs' : List Vec3),
      List.foldlM (accumulateInteraction ps) accs l = some accs' →
      accs'.length = accs.length
  | [], ps, accs, accs', h => by
      simp only [List.foldlM_nil] at h
      cases h
      rfl
  | j :: l, ps, accs, accs', h => by
      rw [List.foldlM_cons] at h
      cases hj : accumulateInteraction ps accs j with
      | none => rw [hj] at h; simp at h
      | some accs1 =>
          rw [hj] at h
          simp only [Option.bind_eq_bind, Option.some_bind] at h
          have := foldlM_accumulate_length l ps accs1 accs' h
          rw [this, accumulateInteraction_length hj]

lemma wsum_foldlM :
    ∀ (l : List Interaction) (ps : List Particle), (∀ p ∈ ps, p.mass ≠ 0) →
      (∀ j ∈ l, isPairwise j) → ∀ (accs accs' : List Vec3), accs.length = ps.length →
      List.foldlM (accumulateInteraction ps) accs l = some accs' →
      wsum ps accs' = wsum ps accs
  | [], ps, _, _, accs, accs', _, h => by
      simp only [List.foldlM_nil] at h
      cases h
      rfl
  | j :: l, ps, hmass, hl, accs, accs', hlen, h => by
      rw [List.foldlM_cons] at h
      cases hj : accumulateInteraction ps accs j with
      | none => rw [hj] at h; simp at h
      | some accs1 =>
          rw [hj] at h
          simp only [Option.bind_eq_bind, Option.some_bind] at h
          have hlen1 : accs1.length = ps.length :=
            (accumulateInteraction_length hj).trans hlen
          have h1 := wsum_foldlM l ps hmass (fun k hk => hl k (List.mem_cons_of_mem j hk))
            accs1 accs' hlen1 h
          rw [h1, wsum_accumulate hmass (hl j (List.mem_cons_self j l)) hlen hj]

lemma computeAccelerations_wsum {s : ParticlesSystem}
    (hmass : ∀ p ∈ s.particles, p.mass ≠ 0)
    (hl : ∀ j ∈ s.interactions, isPairwise j) {accs : List Vec3}
    (h : computeAccelerations s = some accs) :
    wsum s.particles accs = 0 ∧ accs.length = s.particles.length := by
  unfold computeAccelerations at h
  constructor
  · rw [wsum_foldlM s.interactions s.particles hmass hl _ accs (by simp) h]
    exact wsum_replicate_zero s.particles s.particles.length
  · simpa using foldlM_accumulate_length s.interactions s.particles _ accs h

lemma kinematicUpdate_cons (dt : ℝ) (accs : List Vec3) (p : Particle) (ps : List Particle) :
    kinematicUpdate dt accs (p :: ps) =
      { p with position := p.position + (dt • p.velocity + (dt / 2) • (dt • accs.getD 0 0)),
               velocity := p.velocity + dt • accs.getD 0 0 } ::
      kinematicUpdate dt accs.tail ps := by
  unfold kinematicUpdate
  rw [List.mapIdx_cons]
  congr 1
  congr 1
  funext i q
  rw [getD_tail]

lemma momentum_kinematicUpdate : ∀ (ps : List Particle) (accs : List Vec3) (dt : ℝ),
    accs.length = ps.length →
    momentum (kinematicUpdate dt accs ps) = momentum ps + dt • wsum ps accs
  | [], accs, dt, _ => by simp [momentum, wsum, kinematicUpdate]
  | p :: ps, [], dt, h => by simp at h
  | p :: ps, a :: accs, dt, h => by
      rw [kinematicUpdate_cons]
      simp only [List.getD_cons_zero, List.tail_cons, momentum, List.map_cons, List.sum_cons]
      have ih := momentum_kinematicUpdate ps accs dt (by simpa using h)
      simp only [momentum] at ih
      rw [ih]
      simp only [wsum, List.zipWith_cons_cons, List.sum_cons, smul_add,
        smul_comm dt p.mass a]
      abel

lemma momentum_advance {s : ParticlesSystem} (hmass : ∀ p ∈ s.particles, p.mass ≠ 0)
    (hpair : ∀ j ∈ s.interactions, isPairwise j) (hcons : s.constraints = []) (dt : ℝ) :
    momentum (s.advance_time dt).1.particles = momentum s.particles := by
  cases h : computeAccelerations s with
  | none => simp [ParticlesSystem.advance_time, h]
  | some accs =>
      obtain ⟨hw, hlen⟩ := computeAccelerations_wsum hmass hpair h
      simp only [ParticlesSystem.advance_time, h, hcons, applyConstraintsMem, if_pos]
      rw [momentum_kinematicUpdate s.particles accs dt hlen]
      rw [hw, smul_zero, add_zero]

lemma mass_mem_of_map_eq {ps qs : List Particle}
    (h : ps.map Particle.mass = qs.map Particle.mass)
    (hq : ∀ p ∈ qs, p.mass ≠ 0) : ∀ p ∈ ps, p.mass ≠ 0 := by
  intro p hp
  have hm : p.mass ∈ qs.map Particle.mass := h ▸ List.mem_map_of_mem Particle.mass hp
  rcases List.mem_map.mp hm with ⟨q, hq', hqe⟩
  rw [← hqe]
  exact hq q hq'

lemma momentum_advanceN : ∀ (n : ℕ) (s : ParticlesSystem),
    (∀ p ∈ s.particles, p.mass ≠ 0) → (∀ j ∈ s.interactions, isPairwise j) →
    s.constraints = [] → ∀ dt : ℝ,
    momentum ((s.advanceN dt n).particles) = momentum s.particles
  | 0, s, _, _, _, dt => rfl
  | n + 1, s, hmass, hpair, hcons, dt => by
      have hf := advance_time_frame s dt
      have h1 : ∀ p ∈ (s.advance_time dt).1.particles, p.mass ≠ 0 :=
        mass_mem_of_map_eq hf.2.2.2.1 hmass
      have h2 : ∀ j ∈ (s.advance_time dt).1.interactions, isPairwise j := by
        rw [hf.1]; exact hpair
      have h3 : (s.advance_time dt).1.constraints = [] := by
        rw [hf.2.1]; exact hcons
      show momentum (((s.advance_time dt).1.advanceN dt n).particles) = momentum s.particles
      rw [momentum_advanceN n (s.advance_time dt).1 h1 h2 h3 dt]
      exact momentum_advance hmass hpair hcons dt

/-! ### Dot-product and failure-propagation helpers -/

lemma dot_self_nonneg (v : Vec3) : 0 ≤ dot v v := by
  obtain ⟨x, y, z⟩ := v
  simp only [dot]
  nlinarith [mul_self_nonneg x, mul_self_nonneg y, mul_self_nonneg z]

lemma dot_smul_left (c : ℝ) (v w : Vec3) : dot (c • v) w = c * dot v w := by
  obtain ⟨x, y, z⟩ := v
  obtain ⟨x', y', z'⟩ := w
  simp only [dot, Prod.smul_mk, smul_eq_mul]
  ring

lemma length_sub_comm (v w : Vec3) : length (v - w) = length (w - v) := by
  obtain ⟨x, y, z⟩ := v
  obtain ⟨x', y', z'⟩ := w
  simp only [length, square_length, dot, Prod.mk_sub_mk]
  ring_nf

lemma square_length_eq_sq_length (v : Vec3) : square_length v = length v ^ 2 := by
  rw [length, square_length, Real.sq_sqrt (dot_self_nonneg v)]

lemma advance_particles_eq (s : ParticlesSystem) (dt : ℝ) (accs : List Vec3)
    (h : computeAccelerations s = some accs) :
    (s.advance_time dt).1.particles =
      (applyConstraintsMem s.constraints (kinematicUpdate dt accs s.particles)).1 := by
  simp only [ParticlesSystem.advance_time, h]
  split <;> rfl

lemma accumulateInteraction_none_of_not_inRange {ps : List Particle} {j : Interaction}
    (h : ¬ interactionInRange ps.length j) (accs : List Vec3) :
    accumulateInteraction ps accs j = none := by
  cases j with
  | force_between_two_particles ia ib f =>
      simp only [interactionInRange, not_and_or, not_lt] at h
      cases h with
      | inl h1 =>
          have ha : ps[ia]? = none := List.getElem?_eq_none h1
          cases hb : ps[ib]? <;> simp [accumulateInteraction, ha, hb]
      | inr h1 =>
          have hb : ps[ib]? = none := List.getElem?_eq_none h1
          cases ha : ps[ia]? <;> simp [accumulateInteraction, ha, hb]
  | external_force idx f =>
      simp only [interactionInRange, not_lt] at h
      simp [accumulateInteraction, List.getElem?_eq_none h]

lemma foldlM_accumulate_none :
    ∀ (l : List Interaction) (ps : List Particle) (accs : List Vec3),
      (∃ j ∈ l, ¬ interactionInRange ps.length j) →
      List.foldlM (accumulateInteraction ps) accs l = none
  | [], ps, accs, h => by simp at h
  | j :: l, ps, accs, h => by
      rw [List.foldlM_cons]
      rcases h with ⟨k, hk, hnr⟩
      rcases List.mem_cons.mp hk with rfl | hk'
      · rw [accumulateInteraction_none_of_not_inRange hnr]
        rfl
      · cases hj : accumulateInteraction ps accs j with
        | none => rfl
        | some accs1 =>
            simp only [Option.bind_eq_bind, Option.some_bind]
            exact foldlM_accumulate_none l ps accs1 ⟨k, hk', hnr⟩

lemma computeAccelerations_none_of_oob {s : ParticlesSystem}
    (h : ∃ j ∈ s.interactions, ¬ interactionInRange s.particles.length j) :
    computeAccelerations s = none := by
  unfold computeAccelerations
  exact foldlM_accumulate_none s.interactions s.particles _ h

lemma applyConstraint_none_of_not_inRange {ps : List Particle} {c : Constraint}
    (h : ¬ constraintInRange ps.length c) :
    applyConstraint ps c = none := by
  obtain ⟨idx, ec⟩ := c
  simp only [constraintInRange, not_lt] at h
  simp [applyConstraint, List.getElem?_eq_none h]

lemma applyConstraintsMem_false_of_oob :
    ∀ (cs : List Constraint) (ps : List Particle),
      (∃ c ∈ cs, ¬ constraintInRange ps.length c) →
      (applyConstraintsMem cs ps).2 = false
  | [], ps, h => by simp at h
  | c :: cs, ps, h => by
      unfold applyConstraintsMem
      rcases h with ⟨k, hk, hnr⟩
      rcases List.mem_cons.mp hk with rfl | hk'
      · rw [applyConstraint_none_of_not_inRange hnr]
      · cases hc : applyConstraint ps c with
        | none => rfl
        | some ps1 =>
            have hlen : ps1.length = ps.length := (applyConstraint_frame hc).2
            exact applyConstraintsMem_false_of_oob cs ps1 ⟨k, hk', by rw [hlen]; exact hnr⟩

lemma advance_false_of_oob_constraint {s : ParticlesSystem} (dt : ℝ)
    (h : ∃ c ∈ s.constraints, ¬ constraintInRange s.particles.length c) :
    (s.advance_time dt).2 = false := by
  cases hacc : computeAccelerations s with
  | none => simp [ParticlesSystem.advance_time, hacc]
  | some accs =>
      have hf : (applyConstraintsMem s.constraints
          (kinematicUpdate dt accs s.particles)).2 = false := by
        apply applyConstraintsMem_false_of_oob
        rw [kinematicUpdate_length]
        exact h
      simp [ParticlesSystem.advance_time, hacc, hf]

/-! ### Claim theorems -/

/-- C10: `advance_time(dt)` mutates only particle positions, particle
velocities and the `time` field: the interaction list, the constraint list,
the snapshot counter `n_time_saved_to_sql`, the number of particles, and
every particle's mass are unchanged by the call. -/
theorem advance_time_frame_conditions (s : ParticlesSystem) (dt : ℝ) :
    (s.advance_time dt).1.interactions = s.interactions ∧
    (s.advance_time dt).1.constraints = s.constraints ∧
    (s.advance_time dt).1.n_time_saved_to_sql = s.n_time_saved_to_sql ∧
    (s.advance_time dt).1.particles.length = s.particles.length ∧
    (s.advance_time dt).1.particles.map Particle.mass = s.particles.map Particle.mass :=
  ⟨(advance_time_frame s dt).1, (advance_time_frame s dt).2.1,
   (advance_time_frame s dt).2.2.1, (advance_time_frame s dt).2.2.2.2,
   (advance_time_frame s dt).2.2.2.1⟩

/-- C9: the snapshot/export operation leaves the particle store and the
clock unchanged; two calls with no intervening `advance_time` export
identical time and particle contents; its only effect on the system state is
`n_time_saved_to_sql += 1` per call, so sequence numbers are unique,
increasing, and start at 0 on a fresh system. -/
theorem dump_to_sqlite_spec (s : ParticlesSystem) :
    ((s.dump_to_sqlite).1.time = s.time ∧
     (s.dump_to_sqlite).1.particles = s.particles ∧
     (s.dump_to_sqlite).1.sequenceIndex = s.n_time_saved_to_sql) ∧
    (s.dump_to_sqlite).2 = { s with n_time_saved_to_sql := s.n_time_saved_to_sql + 1 } ∧
    (((s.dump_to_sqlite).2.dump_to_sqlite).1.time = (s.dump_to_sqlite).1.time ∧
     ((s.dump_to_sqlite).2.dump_to_sqlite).1.particles = (s.dump_to_sqlite).1.particles ∧
     ((s.dump_to_sqlite).2.dump_to_sqlite).1.sequenceIndex =
       (s.dump_to_sqlite).1.sequenceIndex + 1) ∧
    ParticlesSystem.new.n_time_saved_to_sql = 0 :=
  ⟨⟨rfl, rfl, rfl⟩, rfl, ⟨rfl, rfl, rfl⟩, rfl⟩

/-- C4 counterexample: on an empty system, `add_particle` stores the
particle at index 0 (where `get` addresses it) but RETURNS 1, so the
returned value is not the newly assigned index. -/
theorem add_particle_return_counterexample :
    (ParticlesSystem.new.add_particle ⟨(1, 2, 3), 0, 1⟩).2 = 1 ∧
    (ParticlesSystem.new.add_particle ⟨(1, 2, 3), 0, 1⟩).1.particles.getD 0 default =
      (⟨(1, 2, 3), 0, 1⟩ : Particle) ∧
    (ParticlesSystem.new.add_particle ⟨(1, 2, 3), 0, 1⟩).2 ≠ 0 :=
  ⟨rfl, rfl, by simp [ParticlesSystem.new, ParticlesSystem.add_particle]⟩

/-- C4 amended: `add_particle` appends the particle and returns the NEW
length of the store, i.e. the newly assigned index plus one; the particle
itself is addressed under index `s.particles.length` (the pre-call
length, starting at 0 for the first particle). -/
theorem add_particle_appends_returns_length (s : ParticlesSystem) (p : Particle) :
    s.add_particle p =
      ({ s with particles := s.particles ++ [p] }, s.particles.length + 1) ∧
    (s.add_particle p).1.particles.getD s.particles.length default = p := by
  constructor
  · unfold ParticlesSystem.add_particle
    simp
  · unfold ParticlesSystem.add_particle
    simp only
    rw [List.getD_eq_getElem?_getD, List.getElem?_concat_length]
    rfl

/-- C7 counterexample: `advance_time` accepts a negative `dt` and the clock
then decreases: on a fresh system `advance_time(-1)` completes and sets
`time` to `-1`, strictly below its previous value 0. -/
theorem clock_decreases_on_negative_dt :
    (ParticlesSystem.new.advance_time (-1)).1.time < ParticlesSystem.new.time := by
  simp only [ParticlesSystem.new, ParticlesSystem.advance_time, computeAccelerations,
    List.foldlM_nil, List.replicate, kinematicUpdate, List.mapIdx_nil, applyConstraintsMem,
    List.length_nil, if_pos]
  norm_num

/-- C7 amended: the clock starts at 0; a completed `advance_time(dt)` call
sets it to exactly `time + dt` while a failed step leaves it unchanged; no
other operation changes it; hence the clock never decreases across any
sequence of operations whose `advance_time` steps all use `dt ≥ 0` — but a
negative `dt` does decrease it. -/
theorem clock_evolution :
    ParticlesSystem.new.time = 0 ∧
    (∀ (s : ParticlesSystem) (dt : ℝ), (s.advance_time dt).2 = true →
      (s.advance_time dt).1.time = s.time + dt) ∧
    (∀ (s : ParticlesSystem) (dt : ℝ), (s.advance_time dt).2 = false →
      (s.advance_time dt).1.time = s.time) ∧
    (∀ (s : ParticlesSystem) (dt : ℝ), 0 ≤ dt → s.time ≤ (s.advance_time dt).1.time) ∧
    (∀ (s : ParticlesSystem) (p : Particle), (s.add_particle p).1.time = s.time) ∧
    (∀ (s : ParticlesSystem) (i : Interaction), (s.add_interaction i).time = s.time) ∧
    (∀ (s : ParticlesSystem) (c : Constraint), (s.add_constraint c).time = s.time) ∧
    (∀ s : ParticlesSystem, (s.dump_to_sqlite).2.time = s.time) := by
  refine ⟨rfl, fun s dt => (advance_time_clock s dt).1,
    fun s dt => (advance_time_clock s dt).2, ?_,
    fun s p => rfl, fun s i => rfl, fun s c => rfl, fun s => rfl⟩
  intro s dt hdt
  cases hb : (s.advance_time dt).2 with
  | true =>
      rw [(advance_time_clock s dt).1 hb]
      linarith
  | false =>
      rw [(advance_time_clock s dt).2 hb]

/-- Witness for the amended clock theorem at concrete inputs. -/
theorem clock_evolution_witness :
    (ParticlesSystem.new.advance_time 1).2 = true ∧
    (ParticlesSystem.new.advance_time 1).1.time = ParticlesSystem.new.time + 1 ∧
    (0 : ℝ) ≤ 2 ∧ ParticlesSystem.new.time ≤ (ParticlesSystem.new.advance_time 2).1.time := by
  have hb : (ParticlesSystem.new.advance_time 1).2 = true := by
    simp only [ParticlesSystem.new, ParticlesSystem.advance_time, computeAccelerations,
      List.foldlM_nil, List.replicate, kinematicUpdate, List.mapIdx_nil, applyConstraintsMem,
      List.length_nil, if_pos]
  exact ⟨hb, clock_evolution.2.1 ParticlesSystem.new 1 hb, by norm_num,
    clock_evolution.2.2.2.1 ParticlesSystem.new 2 (by norm_num)⟩

/-- C1: one `advance_time(dt)` call updates each particle's kinematic state
from its own pre-step accumulated acceleration `a = accs[i]`, pre-step
velocity `v` and pre-step position `p` as `dv = a*dt`,
`dp = v*dt + dv*dt/2`, new position `p + dp`, new velocity `v + dv`; the
constraint phase is then applied to this kinematically updated list with no
re-evaluation of forces after the velocity update. -/
theorem advance_time_kinematic_spec (s : ParticlesSystem) (dt : ℝ) (accs : List Vec3)
    (h : computeAccelerations s = some accs) (i : ℕ) (hi : i < s.particles.length) :
    (s.advance_time dt).1.particles =
      (applyConstraintsMem s.constraints (kinematicUpdate dt accs s.particles)).1 ∧
    (kinematicUpdate dt accs s.particles).getD i default =
      { position := (s.particles.getD i default).position +
          (dt • (s.particles.getD i default).velocity + (dt / 2) • (dt • accs.getD i 0)),
        velocity := (s.particles.getD i default).velocity + dt • accs.getD i 0,
        mass := (s.particles.getD i default).mass } := by
  refine ⟨advance_particles_eq s dt accs h, ?_⟩
  unfold kinematicUpdate
  rw [getD_mapIdx _ s.particles i hi default default]

/-- Witness for the kinematic-update theorem on a concrete one-particle
system with zero accumulated acceleration. -/
theorem advance_time_kinematic_spec_witness :
    computeAccelerations kinSys = some [(0 : Vec3)] ∧ 0 < kinSys.particles.length ∧
    ((kinSys.advance_time 1).1.particles =
      (applyConstraintsMem kinSys.constraints (kinematicUpdate 1 [(0 : Vec3)] kinSys.particles)).1 ∧
     (kinematicUpdate 1 [(0 : Vec3)] kinSys.particles).getD 0 default =
      { position := (kinSys.particles.getD 0 default).position +
          ((1 : ℝ) • (kinSys.particles.getD 0 default).velocity +
            ((1 : ℝ) / 2) • ((1 : ℝ) • List.getD [(0 : Vec3)] 0 0)),
        velocity := (kinSys.particles.getD 0 default).velocity +
          (1 : ℝ) • List.getD [(0 : Vec3)] 0 0,
        mass := (kinSys.particles.getD 0 default).mass }) :=
  ⟨rfl, by simp [kinSys],
   advance_time_kinematic_spec kinSys 1 [(0 : Vec3)] rfl 0 (by simp [kinSys])⟩

/-- C2: for every sphere constraint and every particle: strictly inside the
sphere (distance from center < radius) the resolve step returns position and
velocity unchanged; on or outside the boundary it returns the same position
and `velocity - 2 * projectOnto(velocity, position - center)`; in
particular a boundary particle moving purely radially has the radial
velocity component sign-flipped (and no tangential component to change);
the position is never corrected. -/
theorem sphere_constraint_spec (sphere : Sphere) (particle : Particle)
    (hr : 0 < sphere.radius) :
    (sphere.is_inside particle.position →
      (ExternalConstraint.spherical_container sphere).compute_new_dynamical_variables particle =
        (particle.position, particle.velocity)) ∧
    (¬ sphere.is_inside particle.position →
      (ExternalConstraint.spherical_container sphere).compute_new_dynamical_variables particle =
        (particle.position,
         particle.velocity -
           (2 : ℝ) • projectOntoVector particle.velocity (particle.position - sphere.center))) ∧
    (∀ c : ℝ, length (particle.position - sphere.center) = sphere.radius →
      particle.velocity = c • (particle.position - sphere.center) →
      ((ExternalConstraint.spherical_container sphere).compute_new_dynamical_variables
          particle).2 =
        (-c) • (particle.position - sphere.center)) := by
  have hbranch : ∀ hcond : ¬ sphere.is_inside particle.position,
      (ExternalConstraint.spherical_container sphere).compute_new_dynamical_variables particle =
        (particle.position,
         particle.velocity -
           (2 : ℝ) • projectOntoVector particle.velocity (particle.position - sphere.center)) := by
    intro hcond
    simp only [ExternalConstraint.compute_new_dynamical_variables, if_neg hcond]
  refine ⟨?_, hbranch, ?_⟩
  · intro hcond
    simp only [ExternalConstraint.compute_new_dynamical_variables, if_pos hcond]
  · intro c hlen hvel
    have hout : ¬ sphere.is_inside particle.position := by
      unfold Sphere.is_inside
      rw [length_sub_comm, hlen]
      exact lt_irrefl _
    rw [hbranch hout]
    have hsq : square_length (particle.position - sphere.center) = sphere.radius ^ 2 := by
      rw [square_length_eq_sq_length, hlen]
    have hne : square_length (particle.position - sphere.center) ≠ 0 := by
      rw [hsq]
      positivity
    simp only [projectOntoVector, hvel, dot_smul_left]
    rw [show dot (particle.position - sphere.center) (particle.position - sphere.center) =
        square_length (particle.position - sphere.center) from rfl]
    rw [mul_div_assoc, div_self hne, mul_one]
    rw [smul_smul, ← sub_smul]
    congr 1
    ring

/-- Witness for the sphere-constraint theorem: the unit sphere at the
origin and a particle on its boundary moving radially outward at unit
speed has its velocity exactly reversed. -/
theorem sphere_constraint_spec_witness :
    (0 : ℝ) < (1 : ℝ) ∧
    length (((1, 0, 0) : Vec3) - (0 : Vec3)) = (1 : ℝ) ∧
    ((ExternalConstraint.spherical_container ⟨0, 1⟩).compute_new_dynamical_variables
        ⟨(1, 0, 0), (1, 0, 0), 1⟩).2 =
      (-1 : ℝ) • (((1, 0, 0) : Vec3) - (0 : Vec3)) := by
  have hlen : length (((1, 0, 0) : Vec3) - (0 : Vec3)) = (1 : ℝ) := by
    simp only [sub_zero, length, square_length, dot]
    norm_num
  exact ⟨by norm_num, hlen,
    (sphere_constraint_spec ⟨0, 1⟩ ⟨(1, 0, 0), (1, 0, 0), 1⟩ (by norm_num)).2.2 1 hlen
      (by simp)⟩

/-- C8: with separation `d = |b.position - a.position| > 0` (and a
well-formed zone layout `d_well ≤ d_max`), the Sticky force on `a` is zero
if `d > d_max`, `normalize(r) * F_sticky` if `d_well < d ≤ d_max`
(including `d = d_max`), and `-normalize(r) * F_repuls` if `d ≤ d_well`
(including `d = d_well`). -/
theorem sticky_force_zones (a b : Particle) (d_well d_max Fs Fr : ℝ)
    (hd : 0 < length (b.position - a.position)) (hzones : d_well ≤ d_max) :
    (d_max < length (b.position - a.position) →
      (Force.Sticky d_well d_max Fs Fr).acting_on_a a b = 0) ∧
    (d_well < length (b.position - a.position) →
      length (b.position - a.position) ≤ d_max →
      (Force.Sticky d_well d_max Fs Fr).acting_on_a a b =
        Fs • normalize (b.position - a.position)) ∧
    (length (b.position - a.position) ≤ d_well →
      (Force.Sticky d_well d_max Fs Fr).acting_on_a a b =
        (-1 : ℝ) • (Fr • normalize (b.position - a.position))) := by
  refine ⟨fun h1 => ?_, fun h2 h3 => ?_, fun h4 => ?_⟩
  · simp only [Force.acting_on_a, if_pos h1]
  · simp only [Force.acting_on_a, if_neg (not_lt.mpr h3), if_pos h2]
  · simp only [Force.acting_on_a, if_neg (not_lt.mpr (h4.trans hzones)),
      if_neg (not_lt.mpr h4)]

/-- Witness for the Sticky zone theorem: two particles at distance 2 with
zones `d_well = 1`, `d_max = 3` land in the sticky zone. -/
theorem sticky_force_zones_witness :
    (0 : ℝ) < length (((2, 0, 0) : Vec3) - (0 : Vec3)) ∧ (1 : ℝ) ≤ (3 : ℝ) ∧
    (Force.Sticky 1 3 5 7).acting_on_a ⟨0, 0, 1⟩ ⟨(2, 0, 0), 0, 1⟩ =
      (5 : ℝ) • normalize ((((2, 0, 0) : Vec3)) - (0 : Vec3)) := by
  have hlen : length (((2, 0, 0) : Vec3) - (0 : Vec3)) = (2 : ℝ) := by
    simp only [sub_zero, length, square_length, dot]
    rw [show (2 : ℝ) * 2 + 0 * 0 + 0 * 0 = 2 ^ 2 by norm_num]
    exact Real.sqrt_sq (by norm_num)
  refine ⟨by rw [hlen]; norm_num, by norm_num, ?_⟩
  exact (sticky_force_zones ⟨0, 0, 1⟩ ⟨(2, 0, 0), 0, 1⟩ 1 3 5 7
    (by rw [hlen]; norm_num) (by norm_num)).2.1
    (by rw [hlen]; norm_num) (by rw [hlen]; norm_num)

/-- C5 counterexample: on a one-particle system, adding an interaction that
references the out-of-range particle index 5 is accepted without any error
report (the interaction is simply appended, exactly as a valid one would
be), and the error is first discovered by the subsequent `advance_time`
call, which fails. -/
theorem oob_interaction_surfaces_in_advance :
    ((ParticlesSystem.new.add_particle ⟨0, 0, 1⟩).1.add_interaction
        (.force_between_two_particles 0 5 (.Elastic 1 1))).interactions =
      [.force_between_two_particles 0 5 (.Elastic 1 1)] ∧
    (((ParticlesSystem.new.add_particle ⟨0, 0, 1⟩).1.add_interaction
        (.force_between_two_particles 0 5 (.Elastic 1 1))).advance_time 1).2 = false := by
  constructor
  · rfl
  · have hnone : computeAccelerations
        ((ParticlesSystem.new.add_particle ⟨0, 0, 1⟩).1.add_interaction
          (.force_between_two_particles 0 5 (.Elastic 1 1))) = none := by
      apply computeAccelerations_none_of_oob
      refine ⟨.force_between_two_particles 0 5 (.Elastic 1 1), by simp [ParticlesSystem.new,
        ParticlesSystem.add_particle, ParticlesSystem.add_interaction], ?_⟩
      simp [interactionInRange, ParticlesSystem.new, ParticlesSystem.add_particle,
        ParticlesSystem.add_interaction]
    simp [ParticlesSystem.advance_time, hnone]

/-- C5 amended: `add_interaction` and `add_constraint` perform no index
validation at all — they unconditionally append — and an interaction whose
particle index is not in range makes the next `advance_time` call fail
(the error is first discovered mid-step, not at add time). -/
theorem add_interaction_no_validation (s : ParticlesSystem) (i : Interaction)
    (c : Constraint) (dt : ℝ) :
    s.add_interaction i = { s with interactions := s.interactions ++ [i] } ∧
    s.add_constraint c = { s with constraints := s.constraints ++ [c] } ∧
    ((∃ j ∈ s.interactions, ¬ interactionInRange s.particles.length j) →
      (s.advance_time dt).2 = false) ∧
    ((∃ k ∈ s.constraints, ¬ constraintInRange s.particles.length k) →
      (s.advance_time dt).2 = false) := by
  refine ⟨rfl, rfl, fun h => ?_, fun h => advance_false_of_oob_constraint dt h⟩
  simp [ParticlesSystem.advance_time, computeAccelerations_none_of_oob h]

/-- Witness for the no-validation theorem on concrete one-particle systems,
one holding an interaction referencing particle index 7, the other a
constraint referencing particle index 4. -/
theorem add_interaction_no_validation_witness :
    ((∃ j ∈ oobSys.interactions, ¬ interactionInRange oobSys.particles.length j) ∧
     (oobSys.advance_time 1).2 = false) ∧
    ((∃ k ∈ oobConsSys.constraints, ¬ constraintInRange oobConsSys.particles.length k) ∧
     (oobConsSys.advance_time 1).2 = false) := by
  have h : ∃ j ∈ oobSys.interactions, ¬ interactionInRange oobSys.particles.length j := by
    refine ⟨.external_force 7 (.LinearDrag 1), by simp [oobSys], ?_⟩
    simp [interactionInRange, oobSys]
  have hc : ∃ k ∈ oobConsSys.constraints,
      ¬ constraintInRange oobConsSys.particles.length k := by
    refine ⟨.external_constraint 4 (.infinite_wall ⟨0, (1, 0, 0)⟩), by simp [oobConsSys], ?_⟩
    simp [constraintInRange, oobConsSys]
  exact ⟨⟨h, (add_interaction_no_validation oobSys (.external_force 7 (.LinearDrag 1))
      (.external_constraint 0 (.spherical_container ⟨0, 1⟩)) 1).2.2.1 h⟩,
    ⟨hc, (add_interaction_no_validation oobConsSys (.external_force 7 (.LinearDrag 1))
      (.external_constraint 4 (.infinite_wall ⟨0, (1, 0, 0)⟩)) 1).2.2.2 hc⟩⟩

/-- C6 counterexample: with one particle moving at unit speed and a single
constraint referencing the out-of-range index 3, `advance_time(1)` fails in
the constraint loop, but the particle list has already received the
kinematic update, so the failed step does NOT leave the system in its
pre-step state. -/
theorem advance_time_torn_state :
    ((⟨[⟨0, (1, 0, 0), 1⟩], [], [.external_constraint 3 (.spherical_container ⟨0, 1⟩)], 0, 0⟩ :
        ParticlesSystem).advance_time 1).2 = false ∧
    ((⟨[⟨0, (1, 0, 0), 1⟩], [], [.external_constraint 3 (.spherical_container ⟨0, 1⟩)], 0, 0⟩ :
        ParticlesSystem).advance_time 1).1.particles ≠ [⟨0, (1, 0, 0), 1⟩] := by
  have hacc : computeAccelerations
      (⟨[⟨0, (1, 0, 0), 1⟩], [], [.external_constraint 3 (.spherical_container ⟨0, 1⟩)], 0, 0⟩ :
        ParticlesSystem) = some [(0 : Vec3)] := rfl
  constructor
  · simp only [ParticlesSystem.advance_time, hacc]
    simp [applyConstraintsMem, applyConstraint, kinematicUpdate]
  · simp only [ParticlesSystem.advance_time, hacc]
    simp [applyConstraintsMem, applyConstraint, kinematicUpdate, Particle.ext_iff,
      Prod.ext_iff]

/-- C6 amended: `advance_time` is not atomic: a failure during force
evaluation (interaction phase) occurs before any particle is mutated and
leaves the system exactly in its pre-step state with the step reported
failed, and any failure leaves the clock unchanged; but a failure during
constraint resolution occurs after the kinematic update has already been
applied to the particle store, leaving a partially updated (torn) state. -/
theorem advance_time_failure_phases (s : ParticlesSystem) (dt : ℝ) :
    (computeAccelerations s = none → s.advance_time dt = (s, false)) ∧
    ((s.advance_time dt).2 = false → (s.advance_time dt).1.time = s.time) ∧
    (∀ accs : List Vec3, computeAccelerations s = some accs →
      (s.advance_time dt).1.particles =
        (applyConstraintsMem s.constraints (kinematicUpdate dt accs s.particles)).1) :=
  ⟨fun h => by simp [ParticlesSystem.advance_time, h],
   (advance_time_clock s dt).2,
   fun accs h => advance_particles_eq s dt accs h⟩

/-- Witness for the failure-phase theorem: a system whose only interaction
references index 0 of an empty particle store fails in the force phase and
is left exactly in its pre-step state. -/
theorem advance_time_failure_phases_witness :
    computeAccelerations
      (⟨[], [.external_force 0 (.LinearDrag 1)], [], 0, 0⟩ : ParticlesSystem) = none ∧
    (⟨[], [.external_force 0 (.LinearDrag 1)], [], 0, 0⟩ :
        ParticlesSystem).advance_time 1 =
      ((⟨[], [.external_force 0 (.LinearDrag 1)], [], 0, 0⟩ : ParticlesSystem), false) := by
  have h : computeAccelerations
      (⟨[], [.external_force 0 (.LinearDrag 1)], [], 0, 0⟩ : ParticlesSystem) = none := rfl
  exact ⟨h, (advance_time_failure_phases
    (⟨[], [.external_force 0 (.LinearDrag 1)], [], 0, 0⟩ : ParticlesSystem) 1).1 h⟩

/-- C3: for a system whose interactions are all pairwise forces between
distinct in-range particles with nonzero separation (and positive masses,
as the data model requires), and whose constraint list is empty, the total
momentum `Σ mass_i • velocity_i` is exactly unchanged by any number of
`advance_time(dt)` calls. -/
theorem momentum_conservation (s : ParticlesSystem)
    (hint : ∀ j ∈ s.interactions, ∃ ia ib f,
      j = Interaction.force_between_two_particles ia ib f ∧ ia ≠ ib ∧
      ia < s.particles.length ∧ ib < s.particles.length ∧
      (s.particles.getD ib default).position - (s.particles.getD ia default).position ≠ 0)
    (hcons : s.constraints = [])
    (hmass : ∀ p ∈ s.particles, 0 < p.mass)
    (dt : ℝ) (n : ℕ) :
    momentum ((s.advanceN dt n).particles) = momentum s.particles := by
  apply momentum_advanceN n s (fun p hp => ne_of_gt (hmass p hp)) ?_ hcons dt
  intro j hj
  rcases hint j hj with ⟨ia, ib, f, rfl, -⟩
  trivial

/-- Witness for momentum conservation on a concrete two-particle system
with one gravitational pairwise interaction, stepped three times. -/
theorem momentum_conservation_witness :
    gravSys.constraints = [] ∧ (∀ p ∈ gravSys.particles, 0 < p.mass) ∧
    momentum ((gravSys.advanceN 1 3).particles) = momentum gravSys.particles := by
  have hmass : ∀ p ∈ gravSys.particles, 0 < p.mass := by
    intro p hp
    simp only [gravSys, List.mem_cons, List.not_mem_nil, or_false] at hp
    rcases hp with rfl | rfl <;> norm_num
  refine ⟨rfl, hmass, ?_⟩
  apply momentum_conservation gravSys ?_ rfl hmass 1 3
  intro j hj
  simp only [gravSys, List.mem_cons, List.not_mem_nil, or_false] at hj
  subst hj
  refine ⟨0, 1, .Gravitational, rfl, by norm_num, by simp [gravSys], by simp [gravSys], ?_⟩
  simp only [gravSys, List.getD_cons_succ, List.getD_cons_zero]
  intro hcontr
  have hx := congrArg Prod.fst hcontr
  simp only [Prod.fst_sub] at hx
  exact absurd hx (by norm_num)

end

end RustedNewton
